import Mathlib

/-!
Shallow embedding of a small interactive shell — its tokenizer/parser and
its pipeline executor — translated from the Rust sources
(`src/parser.rs`, `src/command.rs`, `src/error.rs`), together with
theorems settling the specification claims about it.

Conventions of the embedding:
  * `String` / `List Char` model Rust `String` / `Peekable<Chars>`; the
    mutable character iterator is threaded explicitly as the unconsumed
    suffix of the input.
  * Fallible Rust functions returning `Result<T, ShellError>` become
    `Except ShellError T`; `io::Error` payloads are modelled by their
    message string.
  * The operating system (environment variables, directory changes,
    process spawning and waiting) is modelled by an oracle `Env`;
    real-world side effects (the working directory, printed lines, and
    the spawn/wait history) are threaded through an explicit `OSState`,
    which is returned even when the Rust function returns `Err`, since
    side effects that happened before an early return persist.
  * `parse_loop` mirrors the `while let` loop of `parse_input`; it is
    given `input.length + 1` fuel, which always suffices because every
    produced token consumes at least one input character.
  * Quote characters are written numerically (`Char.ofNat 34/39`) so the
    development never contains a literal quote character.
-/

namespace Shell

/-- The double-quote character `"`. -/
def dquote : Char := Char.ofNat 34

/-- The single-quote character. -/
def squote : Char := Char.ofNat 39

/-- A one-character string holding a single quote; the Rust error
messages built with `format!("命令 '{}' ...")` contain such quotes. -/
def squoteStr : String := String.mk [squote]

/-- Rust `enum ShellError` from `src/error.rs`. -/
inductive ShellError where
  | Io : String → ShellError
  | ParseError : String → ShellError
  | CommandError : String → ShellError
deriving DecidableEq, Repr

instance {ε α : Type} [DecidableEq ε] [DecidableEq α] : DecidableEq (Except ε α) := fun a b =>
  match a, b with
  | .error x, .error y => decidable_of_iff (x = y) (by simp)
  | .error _, .ok _ => isFalse (fun h => Except.noConfusion h)
  | .ok _, .error _ => isFalse (fun h => Except.noConfusion h)
  | .ok x, .ok y => decidable_of_iff (x = y) (by simp)

/-- Rust `struct Command` from `src/parser.rs`. -/
structure Command where
  program : String
  args : List String
deriving DecidableEq, Repr

/-- Rust `fn skip_whitespace` from `src/parser.rs`: drop leading
whitespace characters from the unconsumed input. -/
def skip_whitespace : List Char → List Char
  | [] => []
  | c :: cs => if c.isWhitespace = true then skip_whitespace cs else c :: cs

/-- How the character-consuming `while` loop inside `parse_token` ends:
either with the early `return Ok(Some("|"))` (pipe consumed), or by
falling out of the loop with the accumulated token, the `in_quotes`
flag, and the unconsumed rest of the input. -/
inductive LoopExit where
  | pipeTok : List Char → LoopExit
  | done : List Char → Bool → List Char → LoopExit
deriving DecidableEq, Repr

/-- The `while let Some(&c) = chars.peek()` loop body of Rust
`fn parse_token` (`src/parser.rs`): arguments are the accumulated token,
the `in_quotes` flag, the current `quote_char`, and the unconsumed
input.  Branch order follows the Rust `if`/`else if` chain exactly. -/
def tokenLoop : List Char → Bool → Char → List Char → LoopExit
  | tk, inQ, _, [] => .done tk inQ []
  | tk, inQ, qc, c :: cs =>
    if c.isWhitespace = true ∧ inQ = false then .done tk inQ cs
    else if (c = dquote ∨ c = squote) ∧ inQ = false then tokenLoop tk true c cs
    else if c = qc ∧ inQ = true then tokenLoop tk false qc cs
    else if c = '|' ∧ inQ = false then
      (if tk = [] then .pipeTok cs else .done tk inQ ('|' :: cs))
    else tokenLoop (tk ++ [c]) inQ qc cs

/-- Rust `fn parse_token` from `src/parser.rs`: skip leading whitespace,
run the accumulation loop, then apply the post-loop checks (unclosed
quote, empty-token-followed-by-pipe, non-empty token, end of tokens).
Returns the token (if any) together with the unconsumed input. -/
def parse_token (chars : List Char) : Except ShellError (Option String × List Char) :=
  if skip_whitespace chars = [] then .ok (none, [])
  else
    match tokenLoop [] false ' ' (skip_whitespace chars) with
    | .pipeTok rest => .ok (some "|", rest)
    | .done token inQ rest =>
      if inQ = true then .error (.ParseError "未闭合的引号")
      else if token = [] then
        if rest.head? = some '|' then .ok (some "|", rest.tail)
        else .ok (none, rest)
      else .ok (some (String.mk token), rest)

/-- Rust `fn create_command_from_parts` from `src/parser.rs`. -/
def create_command_from_parts : List String → Except ShellError Command
  | [] => .error (.ParseError "空命令")
  | p :: rest => .ok (Command.mk p rest)

/-- The code that runs after `parse_input`'s `while let` loop exits
normally: flush a non-empty `current_parts` buffer into a final command
and fail if no command was produced. -/
def parse_finish (parts : List String) (cmds : List Command) : Except ShellError (List Command) :=
  if parts = [] then
    (if cmds = [] then .error (.ParseError "没有找到有效命令") else .ok cmds)
  else
    match create_command_from_parts parts with
    | .error e => .error e
    | .ok cmd =>
      if cmds ++ [cmd] = [] then .error (.ParseError "没有找到有效命令")
      else .ok (cmds ++ [cmd])

/-- The `while let Some(part) = parse_token(..)?` loop of Rust
`fn parse_input` (`src/parser.rs`), with `current_parts` and `commands`
as accumulators.  The fuel argument only bounds the number of
iterations; `parse_input` passes `input.length + 1`, which always
suffices because each iteration consumes at least one character. -/
def parse_loop : Nat → List Char → List String → List Command → Except ShellError (List Command)
  | 0, _, _, _ => .error (.ParseError "内部错误")
  | fuel + 1, cs, parts, cmds =>
    match parse_token cs with
    | .error e => .error e
    | .ok (none, _) => parse_finish parts cmds
    | .ok (some p, rest) =>
      if p = "|" then
        if parts = [] then .error (.ParseError "管道前没有命令")
        else
          match create_command_from_parts parts with
          | .error e => .error e
          | .ok cmd => parse_loop fuel rest [] (cmds ++ [cmd])
      else parse_loop fuel rest (parts ++ [p]) cmds

/-- Rust `pub fn parse_input` from `src/parser.rs`. -/
def parse_input (input : String) : Except ShellError (List Command) :=
  parse_loop (input.data.length + 1) input.data [] []

/-- An observable OS-level action performed by the executor: spawning a
process (identified by spawn order) for a program, or waiting on it. -/
inductive Event where
  | spawn : Nat → String → Event
  | wait : Nat → Event
deriving DecidableEq, Repr

/-- Oracle for the operating-system calls the executor makes: the HOME
variable, whether `set_current_dir` succeeds for a path (and the message
of the `io::Error` when it does not), whether `current_dir` succeeds,
whether spawning a program succeeds (and the OS error message when it
does not), and each spawned process's wait status (`status.success()`
and `status.code()`, indexed by spawn order). -/
structure Env where
  home : Option String
  chdirOk : String → Bool
  chdirErr : String → String
  currentDirOk : Bool
  spawnOk : String → List String → Bool
  spawnErr : String → String
  waitSuccess : Nat → Bool
  waitCode : Nat → Option Int

/-- The real-world state the shell process mutates: the process-wide
current working directory, the lines printed to stdout by builtins, the
history of spawn/wait events, and the next spawn-order identifier. -/
structure OSState where
  cwd : String
  output : List String
  events : List Event
  nextPid : Nat
deriving DecidableEq, Repr

/-- Rust `fn execute_builtin` from `src/command.rs`.  Returns the
updated world state (side effects persist even when an error is
returned) and `Ok(true)` when the command was a builtin, `Ok(false)`
when it was not. -/
def execute_builtin (env : Env) (cmd : Command) (s : OSState) :
    OSState × Except ShellError Bool :=
  if cmd.program = "cd" then
    match cmd.args.head? with
    | some dir =>
      if env.chdirOk dir = true then ({ s with cwd := dir }, .ok true)
      else (s, .error (.Io (env.chdirErr dir)))
    | none =>
      match env.home with
      | some home =>
        if env.chdirOk home = true then ({ s with cwd := home }, .ok true)
        else (s, .error (.Io (env.chdirErr home)))
      | none => (s, .error (.CommandError "无法确定HOME目录"))
  else if cmd.program = "pwd" then
    (if env.currentDirOk = true then ({ s with output := s.output ++ [s.cwd] }, .ok true)
     else (s, .error (.Io "无法获取当前目录")))
  else if cmd.program = "echo" then
    ({ s with output := s.output ++ [String.intercalate " " cmd.args] }, .ok true)
  else (s, .ok false)

/-- The `Result` component of `execute_builtin`, which depends only on
the oracle (never on the world state); used to state hypotheses about
which stages are builtins. -/
def builtinResult (env : Env) (cmd : Command) : Except ShellError Bool :=
  if cmd.program = "cd" then
    match cmd.args.head? with
    | some dir => if env.chdirOk dir = true then .ok true else .error (.Io (env.chdirErr dir))
    | none =>
      match env.home with
      | some home =>
        if env.chdirOk home = true then .ok true else .error (.Io (env.chdirErr home))
      | none => .error (.CommandError "无法确定HOME目录")
  else if cmd.program = "pwd" then
    (if env.currentDirOk = true then .ok true else .error (.Io "无法获取当前目录"))
  else if cmd.program = "echo" then .ok true
  else .ok false

/-- Rust `fn execute_external` from `src/command.rs`: spawn a child with
inherited streams; on success the child is identified by its spawn
order. -/
def execute_external (env : Env) (cmd : Command) (s : OSState) :
    OSState × Except ShellError Nat :=
  if env.spawnOk cmd.program cmd.args = true then
    ({ s with nextPid := s.nextPid + 1,
              events := s.events ++ [Event.spawn s.nextPid cmd.program] },
     .ok s.nextPid)
  else
    (s, .error (.CommandError ("无法执行命令 " ++ squoteStr ++ cmd.program ++ squoteStr
        ++ ": " ++ env.spawnErr cmd.program)))

/-- Rust `fn execute_single_command` from `src/command.rs`: try the
builtin first; otherwise spawn the external command and wait on it,
reporting a non-zero exit status. -/
def execute_single_command (env : Env) (cmd : Command) (s : OSState) :
    OSState × Except ShellError Unit :=
  match execute_builtin env cmd s with
  | (s1, .error e) => (s1, .error e)
  | (s1, .ok true) => (s1, .ok ())
  | (s1, .ok false) =>
    match execute_external env cmd s1 with
    | (s2, .error e) => (s2, .error e)
    | (s2, .ok pid) =>
      let s3 := { s2 with events := s2.events ++ [Event.wait pid] }
      if env.waitSuccess pid = true then (s3, .ok ())
      else
        (s3, .error (.CommandError ("命令 " ++ squoteStr ++ cmd.program ++ squoteStr
            ++ " 退出，状态码: " ++ toString ((env.waitCode pid).getD (-1)))))

/-- The `for (i, cmd) in commands.iter().enumerate()` loop of Rust
`fn execute_piped_commands` (`src/command.rs`): per stage, run the
builtin check (executing the builtin's side effects!), spawn the stage,
wait immediately on the last stage, and collect the spawn identifiers of
the non-final stages. -/
def pipedSpawnLoop (env : Env) (n : Nat) :
    List Command → Nat → List Nat → OSState → OSState × Except ShellError (List Nat)
  | [], _, procs, s => (s, .ok procs)
  | cmd :: rest, i, procs, s =>
    match execute_builtin env cmd s with
    | (s1, .error e) => (s1, .error e)
    | (s1, .ok true) => (s1, .error (.CommandError "内建命令不支持管道"))
    | (s1, .ok false) =>
      if env.spawnOk cmd.program cmd.args = true then
        let pid := s1.nextPid
        let s2 := { s1 with nextPid := pid + 1,
                            events := s1.events ++ [Event.spawn pid cmd.program] }
        if i = n - 1 then
          let s3 := { s2 with events := s2.events ++ [Event.wait pid] }
          if env.waitSuccess pid = true then pipedSpawnLoop env n rest (i + 1) procs s3
          else
            (s3, .error (.CommandError ("命令 " ++ squoteStr ++ cmd.program ++ squoteStr
                ++ " 退出，状态码: " ++ toString ((env.waitCode pid).getD (-1)))))
        else pipedSpawnLoop env n rest (i + 1) (procs ++ [pid]) s2
      else
        (s1, .error (.CommandError ("无法执行命令 " ++ squoteStr ++ cmd.program ++ squoteStr
            ++ ": " ++ env.spawnErr cmd.program)))

/-- The `for mut process in processes` loop at the end of Rust
`fn execute_piped_commands`: wait on the collected intermediate stages
in their spawn order, failing at the first non-zero status. -/
def waitIntermediates (env : Env) : List Nat → OSState → OSState × Except ShellError Unit
  | [], s => (s, .ok ())
  | pid :: rest, s =>
    let s1 := { s with events := s.events ++ [Event.wait pid] }
    if env.waitSuccess pid = true then waitIntermediates env rest s1
    else (s1, .error (.CommandError "管道中的命令失败"))

/-- Rust `fn execute_piped_commands` from `src/command.rs`. -/
def execute_piped_commands (env : Env) (commands : List Command) (s : OSState) :
    OSState × Except ShellError Unit :=
  match commands with
  | [] => (s, .ok ())
  | [cmd] => execute_single_command env cmd s
  | _ =>
    match pipedSpawnLoop env commands.length commands 0 [] s with
    | (s1, .error e) => (s1, .error e)
    | (s1, .ok procs) => waitIntermediates env procs s1

/-- Rust `pub fn execute_command` from `src/command.rs` (the public
`execute` contract of the spec). -/
def execute_command (env : Env) (commands : List Command) (s : OSState) :
    OSState × Except ShellError Unit :=
  execute_piped_commands env commands s

/-- A character that the tokenizer treats as ordinary text: not
whitespace, not a quote, not a pipe. -/
def plainChar (c : Char) : Prop :=
  c.isWhitespace = false ∧ c ≠ dquote ∧ c ≠ squote ∧ c ≠ '|'

instance (c : Char) : Decidable (plainChar c) := by unfold plainChar; infer_instance

/-- The characters of `a | b | c ...`: the given stage names joined by
a pipe between single spaces. -/
def joinNames : List String → List Char
  | [] => []
  | [n] => n.data
  | n :: m :: rest => n.data ++ ' ' :: '|' :: ' ' :: joinNames (m :: rest)

/-- The input string `a | b | c ...` for the given stage names. -/
def mkPipelineInput (names : List String) : String := String.mk (joinNames names)

/-- The spawn events of a left-to-right spawn pass over the given
stages, the first stage receiving the given spawn identifier. -/
def spawnEvents : Nat → List Command → List Event
  | _, [] => []
  | i, c :: rest => Event.spawn i c.program :: spawnEvents (i + 1) rest

/-- The spawn identifiers `i, i+1, ..., i+k-1` of `k` consecutively
spawned stages, in spawn order. -/
def rangeFrom (i : Nat) : Nat → List Nat
  | 0 => []
  | k + 1 => i :: rangeFrom (i + 1) k

/-- From the spec's ordering guarantee: waiting on the intermediate
stages in their original left-to-right spawn order, stopping at the
first non-zero status, which is reported as the generic pipeline
failure.  Returns the wait events and the overall result. -/
def specWaitTrace (env : Env) : List Nat → List Event × Except ShellError Unit
  | [] => ([], .ok ())
  | pid :: rest =>
    if env.waitSuccess pid = true then
      (Event.wait pid :: (specWaitTrace env rest).1, (specWaitTrace env rest).2)
    else ([Event.wait pid], .error (.CommandError "管道中的命令失败"))

/-- An oracle in which every OS call succeeds. -/
def env0 : Env where
  home := some "/home/user"
  chdirOk := fun _ => true
  chdirErr := fun _ => "目录不存在"
  currentDirOk := true
  spawnOk := fun _ _ => true
  spawnErr := fun _ => "未找到命令"
  waitSuccess := fun _ => true
  waitCode := fun _ => some 0

/-- An oracle in which HOME is unset and every directory change fails. -/
def envNoChdir : Env where
  home := none
  chdirOk := fun _ => false
  chdirErr := fun _ => "目录不存在"
  currentDirOk := true
  spawnOk := fun _ _ => true
  spawnErr := fun _ => "未找到命令"
  waitSuccess := fun _ => true
  waitCode := fun _ => some 0

/-- A starting world state. -/
def s0 : OSState where
  cwd := "/root"
  output := []
  events := []
  nextPid := 0

/-! ### Basic lemmas about the tokenizer -/

theorem string_mk_data (s : String) : String.mk s.data = s := rfl

theorem plainChar_of_isAlphanum {c : Char} (h : c.isAlphanum = true) : plainChar c := by
  refine ⟨?_, ?_, ?_, ?_⟩
  · by_contra hw
    rw [Bool.not_eq_false] at hw
    simp only [Char.isWhitespace, Bool.or_eq_true, decide_eq_true_eq] at hw
    rcases hw with ((h1 | h1) | h1) | h1 <;> (subst h1; exact absurd h (by decide))
  · intro h1; subst h1; exact absurd h (by decide)
  · intro h1; subst h1; exact absurd h (by decide)
  · intro h1; subst h1; exact absurd h (by decide)

theorem skip_whitespace_cons_ws {c : Char} (hc : c.isWhitespace = true) (cs : List Char) :
    skip_whitespace (c :: cs) = skip_whitespace cs := by
  simp [skip_whitespace, hc]

theorem skip_whitespace_cons {c : Char} (hc : c.isWhitespace = false) (cs : List Char) :
    skip_whitespace (c :: cs) = c :: cs := by
  simp [skip_whitespace, hc]

theorem tokenLoop_append_plain :
    ∀ (w : List Char), (∀ c ∈ w, plainChar c) →
      ∀ (tk : List Char) (qc : Char) (rest : List Char),
        tokenLoop tk false qc (w ++ rest) = tokenLoop (tk ++ w) false qc rest := by
  intro w
  induction w with
  | nil => intro _ tk qc rest; simp
  | cons c w ih =>
    intro hw tk qc rest
    obtain ⟨hws, hdq, hsq, hp⟩ := hw c (List.mem_cons_self c w)
    rw [List.cons_append, tokenLoop,
        if_neg (by simp [hws]), if_neg (by simp [hdq, hsq]), if_neg (by simp),
        if_neg (by simp [hp]),
        ih (fun x hx => hw x (List.mem_cons_of_mem c hx)) (tk ++ [c]) qc rest]
    simp

theorem tokenLoop_append_quoted :
    ∀ (w : List Char) (q : Char), (∀ c ∈ w, c ≠ q) →
      ∀ (tk rest : List Char),
        tokenLoop tk true q (w ++ rest) = tokenLoop (tk ++ w) true q rest := by
  intro w
  induction w with
  | nil => intro _ _ tk rest; simp
  | cons c w ih =>
    intro q hw tk rest
    have hcq := hw c (List.mem_cons_self c w)
    rw [List.cons_append, tokenLoop,
        if_neg (by simp), if_neg (by simp), if_neg (by simp [hcq]), if_neg (by simp),
        ih q (fun x hx => hw x (List.mem_cons_of_mem c hx)) (tk ++ [c]) rest]
    simp

/-! ### Lemmas about `parse_token` -/

theorem parse_token_nil : parse_token [] = .ok (none, []) := rfl

theorem parse_token_ws_cons {c : Char} (hc : c.isWhitespace = true) (cs : List Char) :
    parse_token (c :: cs) = parse_token cs := by
  unfold parse_token
  rw [skip_whitespace_cons_ws hc]

theorem parse_token_word_nil (n : List Char) (hn : n ≠ []) (hw : ∀ c ∈ n, plainChar c) :
    parse_token n = .ok (some (String.mk n), []) := by
  obtain ⟨a, n', rfl⟩ := List.exists_cons_of_ne_nil hn
  have ha := hw a (List.mem_cons_self a n')
  unfold parse_token
  rw [skip_whitespace_cons ha.1, if_neg (by simp)]
  have h1 : tokenLoop [] false ' ' ((a :: n') ++ []) = tokenLoop ([] ++ (a :: n')) false ' ' [] :=
    tokenLoop_append_plain (a :: n') hw [] ' ' []
  rw [List.append_nil] at h1
  rw [h1]
  simp [tokenLoop]

theorem parse_token_word_ws (n : List Char) (hn : n ≠ []) (hw : ∀ c ∈ n, plainChar c)
    {c : Char} (hc : c.isWhitespace = true) (r : List Char) :
    parse_token (n ++ c :: r) = .ok (some (String.mk n), r) := by
  obtain ⟨a, n', rfl⟩ := List.exists_cons_of_ne_nil hn
  have ha := hw a (List.mem_cons_self a n')
  unfold parse_token
  rw [List.cons_append, skip_whitespace_cons ha.1, ← List.cons_append,
      tokenLoop_append_plain (a :: n') hw [] ' ' (c :: r)]
  rw [if_neg (by simp), List.nil_append, tokenLoop, if_pos ⟨hc, rfl⟩]
  simp

theorem parse_token_pipe (r : List Char) :
    parse_token ('|' :: r) = .ok (some "|", r) := by
  unfold parse_token
  rw [skip_whitespace_cons (by decide), if_neg (by simp),
      tokenLoop, if_neg (by decide), if_neg (by decide), if_neg (by decide),
      if_pos (by decide), if_pos rfl]

theorem parse_token_quoted (q : Char) (hq : q = dquote ∨ q = squote)
    (w : List Char) (hw : ∀ c ∈ w, c ≠ q) (hne : w ≠ []) :
    parse_token (q :: (w ++ [q])) = .ok (some (String.mk w), []) := by
  have hqws : q.isWhitespace = false := by rcases hq with rfl | rfl <;> decide
  unfold parse_token
  rw [skip_whitespace_cons hqws, if_neg (by simp),
      tokenLoop, if_neg (by simp [hqws]), if_pos ⟨hq, rfl⟩,
      tokenLoop_append_quoted w q hw [] [q],
      List.nil_append, tokenLoop, if_neg (by simp), if_neg (by simp),
      if_pos ⟨rfl, rfl⟩]
  simp [tokenLoop, hne]

theorem parse_token_unclosed (q : Char) (hq : q = dquote ∨ q = squote)
    (w : List Char) (hw : ∀ c ∈ w, c ≠ q) :
    parse_token (q :: w) = .error (.ParseError "未闭合的引号") := by
  have hqws : q.isWhitespace = false := by rcases hq with rfl | rfl <;> decide
  unfold parse_token
  rw [skip_whitespace_cons hqws, if_neg (by simp),
      tokenLoop, if_neg (by simp [hqws]), if_pos ⟨hq, rfl⟩,
      ← List.append_nil w, tokenLoop_append_quoted w q hw [] [],
      List.nil_append]
  simp [tokenLoop]

theorem parse_token_empty_quotes (q : Char) (hq : q = dquote ∨ q = squote)
    {c : Char} (hc : c.isWhitespace = true) (t : List Char) (ht : t.head? ≠ some '|') :
    parse_token (q :: q :: c :: t) = .ok (none, t) := by
  have hqws : q.isWhitespace = false := by rcases hq with rfl | rfl <;> decide
  unfold parse_token
  rw [skip_whitespace_cons hqws, if_neg (by simp),
      tokenLoop, if_neg (by simp [hqws]), if_pos ⟨hq, rfl⟩,
      tokenLoop, if_neg (by simp), if_neg (by simp), if_pos ⟨rfl, rfl⟩,
      tokenLoop, if_pos ⟨hc, rfl⟩]
  simp [ht]

/-! ### Lemmas about `parse_loop` and pipeline-shaped inputs -/

theorem parse_token_some_ne {cs : List Char} {p : String} {rest : List Char}
    (h : parse_token cs = .ok (some p, rest)) : p ≠ "" := by
  unfold parse_token at h
  by_cases h0 : skip_whitespace cs = []
  · rw [if_pos h0] at h; exact absurd h (by simp)
  · rw [if_neg h0] at h
    rcases htl : tokenLoop [] false ' ' (skip_whitespace cs) with r | ⟨token, inQ, r⟩ <;>
      rw [htl] at h <;> dsimp only at h
    · simp only [Except.ok.injEq, Prod.mk.injEq, Option.some.injEq] at h
      rw [← h.1]; decide
    · by_cases hq : inQ = true
      · rw [if_pos hq] at h; exact absurd h (by simp)
      · rw [if_neg hq] at h
        by_cases he : token = []
        · rw [if_pos he] at h
          by_cases hr : r.head? = some '|'
          · rw [if_pos hr] at h
            simp only [Except.ok.injEq, Prod.mk.injEq, Option.some.injEq] at h
            rw [← h.1]; decide
          · rw [if_neg hr] at h; exact absurd h (by simp)
        · rw [if_neg he] at h
          simp only [Except.ok.injEq, Prod.mk.injEq, Option.some.injEq] at h
          rw [← h.1]
          intro hcon
          exact he (by simpa using congrArg String.data hcon)

theorem parse_loop_ws_cons {c : Char} (hc : c.isWhitespace = true)
    (fuel : Nat) (cs : List Char) (parts : List String) (cmds : List Command) :
    parse_loop (fuel + 1) (c :: cs) parts cmds = parse_loop (fuel + 1) cs parts cmds := by
  rw [parse_loop, parse_loop, parse_token_ws_cons hc]

theorem pipe_notMem_of_plain {n : String} (hw : ∀ c ∈ n.data, plainChar c) : n ≠ "|" := by
  intro h
  have : '|' ∈ n.data := by rw [h]; decide
  exact absurd rfl (hw '|' this).2.2.2

theorem parse_loop_join :
    ∀ (names : List String), names ≠ [] →
      (∀ n ∈ names, n.data ≠ [] ∧ ∀ c ∈ n.data, plainChar c) →
      ∀ (tail : List Char), (tail = [] ∨ tail = [' ', '|']) →
      ∀ (fuel : Nat) (cmds : List Command), (joinNames names ++ tail).length < fuel →
        parse_loop fuel (joinNames names ++ tail) [] cmds
          = .ok (cmds ++ names.map fun n => Command.mk n []) := by
  intro names
  induction names with
  | nil => intro h; exact absurd rfl h
  | cons n rest ih =>
    intro _ hok tail htail fuel cmds hfuel
    obtain ⟨hn, hw⟩ := hok n (List.mem_cons_self n rest)
    have hnp : n ≠ "|" := pipe_notMem_of_plain hw
    cases rest with
    | nil =>
      simp only [joinNames] at hfuel ⊢
      rcases htail with rfl | rfl
      · rw [List.append_nil] at hfuel ⊢
        obtain ⟨f1, rfl⟩ : ∃ f1, fuel = f1 + 1 := ⟨fuel - 1, by omega⟩
        rw [parse_loop, parse_token_word_nil n.data hn hw, string_mk_data]
        have hf1 : 1 ≤ f1 := by
          have : 1 ≤ n.data.length := List.length_pos.mpr hn
          omega
        obtain ⟨f2, rfl⟩ : ∃ f2, f1 = f2 + 1 := ⟨f1 - 1, by omega⟩
        simp only [if_neg hnp]
        rw [parse_loop, parse_token_nil]
        simp [parse_finish, create_command_from_parts]
      · obtain ⟨f1, rfl⟩ : ∃ f1, fuel = f1 + 1 := ⟨fuel - 1, by omega⟩
        rw [show n.data ++ [' ', '|'] = n.data ++ ' ' :: ['|'] from rfl,
            parse_loop, parse_token_word_ws n.data hn hw (by decide) ['|'], string_mk_data]
        simp only [if_neg hnp, List.nil_append]
        have hf1 : 2 ≤ f1 := by
          have h1 : 1 ≤ n.data.length := List.length_pos.mpr hn
          simp only [List.length_append, List.length_cons, List.length_nil] at hfuel
          omega
        obtain ⟨f2, rfl⟩ : ∃ f2, f1 = f2 + 1 := ⟨f1 - 1, by omega⟩
        rw [parse_loop, parse_token_pipe []]
        simp only [if_pos rfl, if_neg (by simp : ¬([n] = []))]
        obtain ⟨f3, rfl⟩ : ∃ f3, f2 = f3 + 1 := ⟨f2 - 1, by omega⟩
        rw [show create_command_from_parts [n] = .ok (Command.mk n []) from rfl]
        dsimp only
        rw [parse_loop, parse_token_nil]
        simp [parse_finish]
    | cons m rest' =>
      have hjoin : joinNames (n :: m :: rest') ++ tail
          = n.data ++ ' ' :: '|' :: ' ' :: (joinNames (m :: rest') ++ tail) := by
        simp [joinNames]
      rw [hjoin] at hfuel ⊢
      have hlen : n.data.length + 3 + (joinNames (m :: rest') ++ tail).length < fuel := by
        simp only [List.length_append, List.length_cons] at hfuel ⊢
        omega
      obtain ⟨f1, rfl⟩ : ∃ f1, fuel = f1 + 1 := ⟨fuel - 1, by omega⟩
      rw [parse_loop,
          parse_token_word_ws n.data hn hw (by decide) ('|' :: ' ' :: (joinNames (m :: rest') ++ tail)),
          string_mk_data]
      simp only [if_neg hnp, List.nil_append]
      obtain ⟨f2, rfl⟩ : ∃ f2, f1 = f2 + 1 := ⟨f1 - 1, by omega⟩
      rw [parse_loop, parse_token_pipe (' ' :: (joinNames (m :: rest') ++ tail))]
      simp only [if_pos rfl, if_neg (by simp : ¬([n] = []))]
      obtain ⟨f3, rfl⟩ : ∃ f3, f2 = f3 + 1 := ⟨f2 - 1, by omega⟩
      rw [show create_command_from_parts [n] = .ok (Command.mk n []) from rfl]
      dsimp only
      rw [parse_loop_ws_cons (by decide) f3 (joinNames (m :: rest') ++ tail) [] (cmds ++ [Command.mk n []]),
          ih (by simp) (fun x hx => hok x (List.mem_cons_of_mem n hx)) tail htail (f3 + 1)
             (cmds ++ [Command.mk n []]) (by omega)]
      simp

theorem mk_ne_pipe {n : List Char} (hw : ∀ c ∈ n, plainChar c) : String.mk n ≠ "|" := by
  intro h
  have h2 : n = ['|'] := by
    have h3 := congrArg String.data h
    simpa using h3
  subst h2
  exact absurd rfl (hw '|' (by simp)).2.2.2

theorem parse_finish_sound {parts : List String} {cmds res : List Command}
    (h : parse_finish parts cmds = .ok res)
    (hp : ∀ p ∈ parts, p ≠ "") (hc : ∀ c ∈ cmds, c.program ≠ "") :
    res ≠ [] ∧ ∀ c ∈ res, c.program ≠ "" := by
  unfold parse_finish at h
  by_cases h0 : parts = []
  · rw [if_pos h0] at h
    by_cases h1 : cmds = []
    · rw [if_pos h1] at h; exact absurd h (by simp)
    · rw [if_neg h1] at h
      simp only [Except.ok.injEq] at h
      subst h; exact ⟨h1, hc⟩
  · rw [if_neg h0] at h
    obtain ⟨p, parts', rfl⟩ := List.exists_cons_of_ne_nil h0
    rw [show create_command_from_parts (p :: parts') = .ok (Command.mk p parts') from rfl] at h
    dsimp only at h
    rw [if_neg (by simp)] at h
    simp only [Except.ok.injEq] at h
    subst h
    refine ⟨by simp, ?_⟩
    intro c hcm
    rcases List.mem_append.mp hcm with hm | hm
    · exact hc c hm
    · rw [List.mem_singleton] at hm
      subst hm
      exact hp p (List.mem_cons_self p parts')

theorem parse_loop_sound :
    ∀ (fuel : Nat) (cs : List Char) (parts : List String) (cmds res : List Command),
      parse_loop fuel cs parts cmds = .ok res →
      (∀ p ∈ parts, p ≠ "") → (∀ c ∈ cmds, c.program ≠ "") →
      res ≠ [] ∧ ∀ c ∈ res, c.program ≠ "" := by
  intro fuel
  induction fuel with
  | zero => intro cs parts cmds res h _ _; exact absurd h (by simp [parse_loop])
  | succ fuel ih =>
    intro cs parts cmds res h hp hc
    rw [parse_loop] at h
    rcases hpt : parse_token cs with e | ⟨op, rest⟩ <;> rw [hpt] at h
    · exact Except.noConfusion (by dsimp only at h; exact h)
    · rcases op with _ | p <;> dsimp only at h
      · exact parse_finish_sound h hp hc
      · by_cases hp1 : p = "|"
        · rw [if_pos hp1] at h
          by_cases h0 : parts = []
          · rw [if_pos h0] at h; exact absurd h (by simp)
          · rw [if_neg h0] at h
            obtain ⟨x, parts', rfl⟩ := List.exists_cons_of_ne_nil h0
            rw [show create_command_from_parts (x :: parts') = .ok (Command.mk x parts') from rfl] at h
            dsimp only at h
            refine ih rest [] (cmds ++ [Command.mk x parts']) res h (by simp) ?_
            intro c hcm
            rcases List.mem_append.mp hcm with hm | hm
            · exact hc c hm
            · rw [List.mem_singleton] at hm; subst hm
              exact hp x (List.mem_cons_self x parts')
        · rw [if_neg hp1] at h
          refine ih rest (parts ++ [p]) cmds res h ?_ hc
          intro x hx
          rcases List.mem_append.mp hx with hm | hm
          · exact hp x hm
          · rw [List.mem_singleton] at hm; subst hm
            exact parse_token_some_ne hpt

/-! ### Parser claims -/

/-- Claim C1, counterexample: the input `a |` — an unquoted trailing
pipe with one valid command before it and nothing after it — does not
make `parse_input` fail; it parses successfully to the single command
`a`. -/
theorem c1_counterexample : parse_input "a |" = .ok [Command.mk "a" []] := by decide

/-- Claim C1, amended: for a pipeline of non-empty alphanumeric stage
names followed by an unquoted trailing pipe (` |`), `parse_input`
succeeds and returns exactly the commands before the trailing pipe; the
trailing pipe is silently ignored. -/
theorem c1_amended_trailing_pipe (names : List String) (h1 : names ≠ [])
    (h2 : ∀ n ∈ names, n.data ≠ [] ∧ ∀ c ∈ n.data, c.isAlphanum = true) :
    parse_input (String.mk (joinNames names ++ [' ', '|']))
      = .ok (names.map fun n => Command.mk n []) := by
  have hok : ∀ n ∈ names, n.data ≠ [] ∧ ∀ c ∈ n.data, plainChar c := fun n hn =>
    ⟨(h2 n hn).1, fun c hc => plainChar_of_isAlphanum ((h2 n hn).2 c hc)⟩
  unfold parse_input
  have h := parse_loop_join names h1 hok [' ', '|'] (Or.inr rfl)
      ((joinNames names ++ [' ', '|']).length + 1) [] (by omega)
  simpa using h

theorem c1_amended_trailing_pipe_witness :
    (["a"] ≠ [] ∧ (∀ n ∈ ["a"], n.data ≠ [] ∧ ∀ c ∈ n.data, c.isAlphanum = true)) ∧
      parse_input (String.mk (joinNames ["a"] ++ [' ', '|'])) = .ok [Command.mk "a" []] :=
  ⟨⟨by decide, by decide⟩, c1_amended_trailing_pipe ["a"] (by decide) (by decide)⟩

/-- Claim C8: for every input of the form `a | b | c ...` whose stage
names are non-empty alphanumeric words, `parse_input` succeeds with one
command per stage, each command's program being the stage name and its
argument list empty. -/
theorem c8_pipeline_parse (names : List String) (h1 : names ≠ [])
    (h2 : ∀ n ∈ names, n.data ≠ [] ∧ ∀ c ∈ n.data, c.isAlphanum = true) :
    parse_input (mkPipelineInput names) = .ok (names.map fun n => Command.mk n []) := by
  have hok : ∀ n ∈ names, n.data ≠ [] ∧ ∀ c ∈ n.data, plainChar c := fun n hn =>
    ⟨(h2 n hn).1, fun c hc => plainChar_of_isAlphanum ((h2 n hn).2 c hc)⟩
  unfold parse_input mkPipelineInput
  have h := parse_loop_join names h1 hok [] (Or.inl rfl)
      ((joinNames names).length + 1) [] (by simp)
  simpa using h

theorem c8_pipeline_parse_witness :
    (["a", "b", "c"] ≠ [] ∧
        (∀ n ∈ ["a", "b", "c"], n.data ≠ [] ∧ ∀ c ∈ n.data, c.isAlphanum = true)) ∧
      parse_input (mkPipelineInput ["a", "b", "c"])
        = .ok [Command.mk "a" [], Command.mk "b" [], Command.mk "c" []] :=
  ⟨⟨by decide, by decide⟩, c8_pipeline_parse ["a", "b", "c"] (by decide) (by decide)⟩

/-- Claim C5: whenever `parse_input` succeeds, the returned command
sequence is non-empty and every command in it has a non-empty program
string. -/
theorem c5_parse_invariants (input : String) (cmds : List Command)
    (h : parse_input input = .ok cmds) :
    cmds ≠ [] ∧ ∀ c ∈ cmds, c.program ≠ "" :=
  parse_loop_sound (input.data.length + 1) input.data [] [] cmds h
    (by simp) (by simp)

theorem c5_parse_invariants_witness :
    parse_input "ls -l" = .ok [Command.mk "ls" ["-l"]] ∧
      ([Command.mk "ls" ["-l"]] ≠ [] ∧ ∀ c ∈ [Command.mk "ls" ["-l"]], c.program ≠ "") :=
  ⟨by decide, c5_parse_invariants "ls -l" [Command.mk "ls" ["-l"]] (by decide)⟩

/-- Claim C9: an input that reaches end of input while still inside an
open quoted region — a plain first word followed by a quote that is
never closed — fails with the unclosed-quote ParseError, even though a
non-empty token had been accumulated when the input ended. -/
theorem c9_unclosed_quote (n : List Char) (hn : n ≠ []) (hw : ∀ c ∈ n, plainChar c)
    (q : Char) (hq : q = dquote ∨ q = squote) (w : List Char) (hw2 : ∀ c ∈ w, c ≠ q) :
    parse_input (String.mk (n ++ ' ' :: q :: w)) = .error (.ParseError "未闭合的引号") := by
  unfold parse_input
  rw [show (String.mk (n ++ ' ' :: q :: w)).data = n ++ ' ' :: q :: w from rfl,
      parse_loop, parse_token_word_ws n hn hw (by decide) (q :: w)]
  dsimp only
  rw [if_neg (mk_ne_pipe hw)]
  simp only [List.nil_append]
  obtain ⟨f1, hf⟩ : ∃ f1, (n ++ ' ' :: q :: w).length = f1 + 1 :=
    ⟨(n ++ ' ' :: q :: w).length - 1, by simp [List.length_append]; omega⟩
  rw [hf, parse_loop, parse_token_unclosed q hq w hw2]

theorem c9_unclosed_quote_witness :
    (("echo".data ≠ [] ∧ ∀ c ∈ ("echo".data : List Char), plainChar c) ∧
        (squote = dquote ∨ squote = squote) ∧
        (∀ c ∈ ("unterminated".data : List Char), c ≠ squote)) ∧
      parse_input (String.mk ("echo".data ++ ' ' :: squote :: "unterminated".data))
        = .error (.ParseError "未闭合的引号") :=
  ⟨⟨⟨by decide, by decide⟩, Or.inr rfl, by decide⟩,
    c9_unclosed_quote "echo".data (by decide) (by decide) squote (Or.inr rfl)
      "unterminated".data (by decide)⟩

/-- Claim C4: a quoted token whose interior contains pipe characters
and whitespace parses as a single argument: the quoted content is never
pipe-split or whitespace-split, and the quote characters do not appear
in the token text. -/
theorem c4_quoted_token (q : Char) (hq : q = dquote ∨ q = squote)
    (w : List Char) (hw : q ∉ w) (hpipe : '|' ∈ w) (hws : ∃ c ∈ w, c.isWhitespace = true) :
    parse_input (String.mk ("echo".data ++ ' ' :: q :: (w ++ [q])))
      = .ok [Command.mk "echo" [String.mk w]] := by
  have hw' : ∀ c ∈ w, c ≠ q := fun c hc h => hw (h ▸ hc)
  have hne : w ≠ [] := List.ne_nil_of_mem hpipe
  have hwp : String.mk w ≠ "|" := by
    intro h
    have h2 : w = ['|'] := by have h3 := congrArg String.data h; simpa using h3
    obtain ⟨c, hc, hcw⟩ := hws
    rw [h2, List.mem_singleton] at hc
    subst hc
    exact absurd hcw (by decide)
  unfold parse_input
  rw [show (String.mk ("echo".data ++ ' ' :: q :: (w ++ [q]))).data
        = "echo".data ++ ' ' :: q :: (w ++ [q]) from rfl,
      parse_loop, parse_token_word_ws "echo".data (by decide) (by decide) (by decide)
        (q :: (w ++ [q]))]
  dsimp only
  rw [if_neg (by decide : ¬(String.mk "echo".data = "|"))]
  simp only [List.nil_append]
  obtain ⟨f1, hf⟩ : ∃ f1, ("echo".data ++ ' ' :: q :: (w ++ [q])).length = f1 + 1 :=
    ⟨("echo".data ++ ' ' :: q :: (w ++ [q])).length - 1, by simp [List.length_append]; try omega⟩
  rw [hf, parse_loop, parse_token_quoted q hq w hw' hne]
  dsimp only
  rw [if_neg hwp]
  obtain ⟨f2, hf2⟩ : ∃ f2, f1 = f2 + 1 := by
    refine ⟨f1 - 1, ?_⟩
    have h4 : ("echo".data : List Char).length = 4 := by decide
    simp only [List.length_append, List.length_cons, h4] at hf
    omega
  rw [hf2, parse_loop, parse_token_nil]
  dsimp only
  simp [parse_finish, create_command_from_parts]

theorem c4_quoted_token_witness :
    ((dquote = dquote ∨ dquote = squote) ∧ dquote ∉ ("a|b c".data : List Char) ∧
        '|' ∈ ("a|b c".data : List Char) ∧
        (∃ c ∈ ("a|b c".data : List Char), c.isWhitespace = true)) ∧
      parse_input (String.mk ("echo".data ++ ' ' :: dquote :: ("a|b c".data ++ [dquote])))
        = .ok [Command.mk "echo" [String.mk "a|b c".data]] :=
  ⟨⟨Or.inl rfl, by decide, by decide, ⟨' ', by decide, by decide⟩⟩,
    c4_quoted_token dquote (Or.inl rfl) "a|b c".data (by decide) (by decide)
      ⟨' ', by decide, by decide⟩⟩

/-- Claim C3, counterexample: on the input `echo "" | wc` the empty
quoted string is a standalone token followed by whitespace, yet the
tokens after it are not discarded: parse succeeds with the two commands
`echo` and `wc`, not with the single command `echo`. -/
theorem c3_counterexample :
    parse_input "echo \x22\x22 | wc" = .ok [Command.mk "echo" [], Command.mk "wc" []] := by
  decide

/-- Claim C3, amended: after an empty quoted string terminated by a
whitespace character, the tokenizer returns the no-more-tokens signal
and everything after that point is silently discarded — provided the
character immediately following the consumed whitespace is not an
unquoted pipe (if it is, a pipe token is emitted instead and parsing
continues).  In particular `echo "" world` parses to the single command
`echo` with no arguments. -/
theorem c3_empty_quotes_discard (q : Char) (hq : q = dquote ∨ q = squote)
    (t : List Char) (ht : t.head? ≠ some '|') :
    parse_input (String.mk ("echo".data ++ ' ' :: q :: q :: ' ' :: t))
      = .ok [Command.mk "echo" []] := by
  unfold parse_input
  rw [show (String.mk ("echo".data ++ ' ' :: q :: q :: ' ' :: t)).data
        = "echo".data ++ ' ' :: q :: q :: ' ' :: t from rfl,
      parse_loop, parse_token_word_ws "echo".data (by decide) (by decide) (by decide)
        (q :: q :: ' ' :: t)]
  dsimp only
  rw [if_neg (by decide : ¬(String.mk "echo".data = "|"))]
  simp only [List.nil_append]
  obtain ⟨f1, hf⟩ : ∃ f1, ("echo".data ++ ' ' :: q :: q :: ' ' :: t).length = f1 + 1 :=
    ⟨("echo".data ++ ' ' :: q :: q :: ' ' :: t).length - 1, by simp [List.length_append]; try omega⟩
  rw [hf, parse_loop, parse_token_empty_quotes q hq (by decide) t ht]
  dsimp only
  simp [parse_finish, create_command_from_parts]

theorem c3_empty_quotes_discard_witness :
    ((dquote = dquote ∨ dquote = squote) ∧
        (("world".data : List Char).head? ≠ some '|')) ∧
      parse_input (String.mk ("echo".data ++ ' ' :: dquote :: dquote :: ' ' :: "world".data))
        = .ok [Command.mk "echo" []] :=
  ⟨⟨Or.inl rfl, by decide⟩,
    c3_empty_quotes_discard dquote (Or.inl rfl) "world".data (by decide)⟩

/-! ### Lemmas about the executor -/

theorem execute_builtin_snd (env : Env) (cmd : Command) (s : OSState) :
    (execute_builtin env cmd s).2 = builtinResult env cmd := by
  unfold execute_builtin builtinResult
  by_cases h1 : cmd.program = "cd"
  · rw [if_pos h1, if_pos h1]
    cases cmd.args.head? with
    | some dir => by_cases h : env.chdirOk dir = true <;> simp [h]
    | none =>
      cases env.home with
      | some home => by_cases h : env.chdirOk home = true <;> simp [h]
      | none => rfl
  · rw [if_neg h1, if_neg h1]
    by_cases h2 : cmd.program = "pwd"
    · rw [if_pos h2, if_pos h2]
      by_cases h : env.currentDirOk = true <;> simp [h]
    · rw [if_neg h2, if_neg h2]
      by_cases h3 : cmd.program = "echo" <;> simp [h3]

theorem execute_builtin_ext (env : Env) (cmd : Command) (s : OSState)
    (h : builtinResult env cmd = .ok false) :
    execute_builtin env cmd s = (s, .ok false) := by
  unfold execute_builtin
  unfold builtinResult at h
  by_cases h1 : cmd.program = "cd"
  · exfalso
    rw [if_pos h1] at h
    cases hh : cmd.args.head? with
    | some dir =>
      rw [hh] at h; dsimp only at h
      by_cases hc : env.chdirOk dir = true
      · rw [if_pos hc] at h; simp at h
      · rw [if_neg hc] at h; exact Except.noConfusion h
    | none =>
      rw [hh] at h; dsimp only at h
      cases hH : env.home with
      | some home =>
        rw [hH] at h; dsimp only at h
        by_cases hc : env.chdirOk home = true
        · rw [if_pos hc] at h; simp at h
        · rw [if_neg hc] at h; exact Except.noConfusion h
      | none => rw [hH] at h; dsimp only at h; exact Except.noConfusion h
  · rw [if_neg h1] at h ⊢
    by_cases h2 : cmd.program = "pwd"
    · exfalso
      rw [if_pos h2] at h
      by_cases hc : env.currentDirOk = true
      · rw [if_pos hc] at h; simp at h
      · rw [if_neg hc] at h; exact Except.noConfusion h
    · rw [if_neg h2] at h ⊢
      by_cases h3 : cmd.program = "echo"
      · exfalso; rw [if_pos h3] at h; simp at h
      · rw [if_neg h3]

/-- Claim C10: executing an empty command sequence returns success
immediately, spawning no process, waiting on nothing, and leaving the
whole world state (working directory, output, event history)
untouched: the executor does not itself enforce the non-empty-pipeline
invariant. -/
theorem c10_empty_execute (env : Env) (s : OSState) :
    execute_command env [] s = (s, .ok ()) := rfl

/-- Claim C6: a single-stage `cd dir` whose underlying directory change
fails returns the I/O-derived error and leaves the whole world state —
in particular the current working directory — unchanged from before the
call; a bare `cd` with HOME unset fails with a CommandError instead. -/
theorem c6_cd_failure (env : Env) (dir : String) (s : OSState)
    (h1 : env.chdirOk dir = false) (h2 : env.home = none) :
    execute_command env [Command.mk "cd" [dir]] s = (s, .error (.Io (env.chdirErr dir))) ∧
      execute_command env [Command.mk "cd" []] s
        = (s, .error (.CommandError "无法确定HOME目录")) := by
  constructor
  · show execute_single_command env (Command.mk "cd" [dir]) s = _
    unfold execute_single_command execute_builtin
    simp [h1]
  · show execute_single_command env (Command.mk "cd" []) s = _
    unfold execute_single_command execute_builtin
    simp [h2]

theorem c6_cd_failure_witness :
    (envNoChdir.chdirOk "/nonexistent-path" = false ∧ envNoChdir.home = none) ∧
      (execute_command envNoChdir [Command.mk "cd" ["/nonexistent-path"]] s0
          = (s0, .error (.Io (envNoChdir.chdirErr "/nonexistent-path"))) ∧
        execute_command envNoChdir [Command.mk "cd" []] s0
          = (s0, .error (.CommandError "无法确定HOME目录"))) :=
  ⟨⟨rfl, rfl⟩, c6_cd_failure envNoChdir "/nonexistent-path" s0 rfl rfl⟩

/-- Claim C2, counterexample: in the two-stage pipeline `cd /x | wc`
under an OS where the directory change fails, `execute` fails with an
I/O error — not with the CommandError "内建命令不支持管道", and not with
any CommandError at all — even though a stage of this length-2 pipeline
is the builtin `cd`. -/
theorem c2_counterexample :
    (execute_piped_commands envNoChdir [Command.mk "cd" ["/x"], Command.mk "wc" []] s0).2
      = .error (.Io "目录不存在") := by decide

theorem pipedSpawnLoop_builtin (env : Env) (n : Nat) :
    ∀ (pre : List Command) (b : Command) (post : List Command) (i : Nat)
      (procs : List Nat) (s : OSState),
      (∀ c ∈ pre, builtinResult env c = .ok false ∧ env.spawnOk c.program c.args = true) →
      builtinResult env b = .ok true →
      i + pre.length + 1 + post.length = n →
      (pipedSpawnLoop env n (pre ++ b :: post) i procs s).2
        = .error (.CommandError "内建命令不支持管道") := by
  intro pre
  induction pre with
  | nil =>
    intro b post i procs s _ hb _
    rw [List.nil_append, pipedSpawnLoop]
    rcases hEB : execute_builtin env b s with ⟨s1, r⟩
    have hr : r = .ok true := by
      have h2 := execute_builtin_snd env b s
      rw [hEB] at h2
      dsimp only at h2
      rw [h2, hb]
    subst hr
    rfl
  | cons c pre ih =>
    intro b post i procs s hpre hb hn
    have hc := hpre c (List.mem_cons_self c pre)
    rw [List.cons_append, pipedSpawnLoop, execute_builtin_ext env c s hc.1]
    dsimp only
    rw [if_pos hc.2]
    have hne : ¬(i = n - 1) := by
      simp only [List.length_cons] at hn
      omega
    rw [if_neg hne]
    exact ih b post (i + 1) _ _ (fun x hx => hpre x (List.mem_cons_of_mem c hx)) hb
      (by simp only [List.length_cons] at hn ⊢; omega)

/-- Claim C2, amended: in a pipeline of length at least 2, if some stage
is a builtin (`cd`, `pwd` or `echo`) whose own execution succeeds, and
every stage before it is an external command that spawns successfully,
then `execute` fails with the CommandError "内建命令不支持管道" — the
builtin's side effects (e.g. a successful `cd`) having already happened
by then.  When an earlier spawn fails, or the builtin itself errors
(e.g. `cd` to a missing directory), a different error is returned
instead. -/
theorem c2_builtin_in_pipeline (env : Env) (pre : List Command) (b : Command)
    (post : List Command) (s : OSState)
    (hpre : ∀ c ∈ pre, builtinResult env c = .ok false ∧ env.spawnOk c.program c.args = true)
    (hb : builtinResult env b = .ok true)
    (hlen : 2 ≤ (pre ++ b :: post).length) :
    (execute_piped_commands env (pre ++ b :: post) s).2
      = .error (.CommandError "内建命令不支持管道") := by
  have hmain := pipedSpawnLoop_builtin env (pre ++ b :: post).length pre b post 0 [] s hpre hb
    (by simp only [List.length_append, List.length_cons]; omega)
  obtain ⟨x, y, rest, hxy⟩ : ∃ x y rest, pre ++ b :: post = x :: y :: rest := by
    rcases pre with _ | ⟨x, pre'⟩
    · rcases post with _ | ⟨y, post'⟩
      · simp at hlen
      · exact ⟨b, y, post', rfl⟩
    · rcases hpe : pre' ++ b :: post with _ | ⟨y, rest⟩
      · exact absurd hpe (by simp)
      · exact ⟨x, y, rest, by simp [hpe]⟩
  rw [hxy] at hmain ⊢
  rw [show execute_piped_commands env (x :: y :: rest) s
        = (match pipedSpawnLoop env (x :: y :: rest).length (x :: y :: rest) 0 [] s with
           | (s1, .error e) => (s1, .error e)
           | (s1, .ok procs) => waitIntermediates env procs s1) from rfl]
  rcases hL : pipedSpawnLoop env (x :: y :: rest).length (x :: y :: rest) 0 [] s with ⟨s1, r⟩
  rw [hL] at hmain
  dsimp only at hmain
  rw [hmain]

theorem c2_builtin_in_pipeline_witness :
    ((∀ c ∈ ([] : List Command),
          builtinResult env0 c = .ok false ∧ env0.spawnOk c.program c.args = true) ∧
        builtinResult env0 (Command.mk "cd" ["/tmp"]) = .ok true ∧
        2 ≤ (([] : List Command) ++ Command.mk "cd" ["/tmp"] :: [Command.mk "wc" []]).length) ∧
      (execute_piped_commands env0
          (([] : List Command) ++ Command.mk "cd" ["/tmp"] :: [Command.mk "wc" []]) s0).2
        = .error (.CommandError "内建命令不支持管道") :=
  ⟨⟨by decide, by decide, by decide⟩,
    c2_builtin_in_pipeline env0 [] (Command.mk "cd" ["/tmp"]) [Command.mk "wc" []] s0
      (by decide) (by decide) (by decide)⟩

theorem rangeFrom_eq_map : ∀ (k i : Nat), rangeFrom i k = (List.range k).map (· + i) := by
  intro k
  induction k with
  | zero => intro i; simp [rangeFrom]
  | succ k ih =>
    intro i
    rw [rangeFrom, List.range_succ_eq_map, List.map_cons, ih (i + 1), List.map_map]
    simp only [Nat.zero_add]
    refine congrArg (fun l => i :: l) ?_
    apply List.map_congr_left
    intro x _
    simp only [Function.comp_apply, Nat.succ_eq_add_one]
    omega

theorem rangeFrom_zero (k : Nat) : rangeFrom 0 k = List.range k := by
  rw [rangeFrom_eq_map]
  simp

theorem waitIntermediates_spec (env : Env) :
    ∀ (pids : List Nat) (s : OSState),
      waitIntermediates env pids s
        = ({ s with events := s.events ++ (specWaitTrace env pids).1 },
           (specWaitTrace env pids).2) := by
  intro pids
  induction pids with
  | nil => intro s; simp [waitIntermediates, specWaitTrace]
  | cons p rest ih =>
    intro s
    rw [waitIntermediates, specWaitTrace]
    by_cases h : env.waitSuccess p = true
    · rw [if_pos h, if_pos h, ih]
      simp [List.append_assoc]
    · rw [if_neg h, if_neg h]

theorem pipedSpawnLoop_ext (env : Env) (n : Nat) :
    ∀ (rest : List Command) (i : Nat) (procs : List Nat) (s : OSState),
      rest ≠ [] → i + rest.length = n → s.nextPid = i →
      (∀ c ∈ rest, builtinResult env c = .ok false) →
      (∀ c ∈ rest, env.spawnOk c.program c.args = true) →
      pipedSpawnLoop env n rest i procs s
        = (if env.waitSuccess (n - 1) = true then
             ({ s with events := s.events ++ spawnEvents i rest ++ [Event.wait (n - 1)],
                       nextPid := n },
              .ok (procs ++ rangeFrom i (rest.length - 1)))
           else
             ({ s with events := s.events ++ spawnEvents i rest ++ [Event.wait (n - 1)],
                       nextPid := n },
              .error (.CommandError ("命令 " ++ squoteStr
                  ++ ((rest.getLast?.map Command.program).getD "") ++ squoteStr
                  ++ " 退出，状态码: " ++ toString ((env.waitCode (n - 1)).getD (-1)))))) := by
  intro rest
  induction rest with
  | nil => intro i procs s h; exact absurd rfl h
  | cons c rest ih =>
    intro i procs s _ hn hpid hb hs
    rw [pipedSpawnLoop, execute_builtin_ext env c s (hb c (List.mem_cons_self c rest))]
    dsimp only
    rw [if_pos (hs c (List.mem_cons_self c rest)), hpid]
    cases rest with
    | nil =>
      simp only [List.length_cons, List.length_nil, Nat.zero_add] at hn
      subst hn
      simp only [Nat.add_sub_cancel, if_true]
      by_cases hw : env.waitSuccess i = true
      · rw [if_pos hw, if_pos hw, pipedSpawnLoop]
        simp [spawnEvents, rangeFrom]
      · rw [if_neg hw, if_neg hw]
        simp [spawnEvents]
    | cons d rest' =>
      have hi : ¬(i = n - 1) := by
        simp only [List.length_cons] at hn
        omega
      rw [if_neg hi]
      rw [ih (i + 1) (procs ++ [i])
            { s with nextPid := i + 1, events := s.events ++ [Event.spawn i c.program] }
            (by simp) (by simp only [List.length_cons] at hn ⊢; omega) rfl
            (fun x hx => hb x (List.mem_cons_of_mem c hx))
            (fun x hx => hs x (List.mem_cons_of_mem c hx))]
      by_cases hw : env.waitSuccess (n - 1) = true
      · rw [if_pos hw, if_pos hw]
        simp [spawnEvents, rangeFrom, List.append_assoc]
      · rw [if_neg hw, if_neg hw]
        simp [spawnEvents, List.append_assoc]

/-- Claim C7: in a multi-stage pipeline all of whose stages are external
commands that spawn successfully, execution spawns every stage in a
single left-to-right pass (spawn events `0..n-1` in order), waits on
the final stage before any intermediate stage is waited on, reports a
non-zero final-stage status immediately as a CommandError naming that
stage's program and exit code (with no intermediate stage waited on at
all), and otherwise waits on the intermediate stages in their original
left-to-right spawn order, reporting the first non-zero status among
them as the CommandError "管道中的命令失败". -/
theorem c7_pipeline_order (env : Env) (cmds : List Command) (s : OSState)
    (hn : 2 ≤ cmds.length)
    (hb : ∀ c ∈ cmds, builtinResult env c = .ok false)
    (hs : ∀ c ∈ cmds, env.spawnOk c.program c.args = true)
    (hp : s.nextPid = 0) :
    (env.waitSuccess (cmds.length - 1) = false →
      execute_piped_commands env cmds s
        = ({ s with events := s.events ++ spawnEvents 0 cmds ++ [Event.wait (cmds.length - 1)],
                    nextPid := cmds.length },
           .error (.CommandError ("命令 " ++ squoteStr
               ++ ((cmds.getLast?.map Command.program).getD "") ++ squoteStr
               ++ " 退出，状态码: " ++ toString ((env.waitCode (cmds.length - 1)).getD (-1)))))) ∧
    (env.waitSuccess (cmds.length - 1) = true →
      execute_piped_commands env cmds s
        = ({ s with events := s.events ++ spawnEvents 0 cmds ++ [Event.wait (cmds.length - 1)]
                      ++ (specWaitTrace env (List.range (cmds.length - 1))).1,
                    nextPid := cmds.length },
           (specWaitTrace env (List.range (cmds.length - 1))).2)) := by
  obtain ⟨x, y, rest, hxy⟩ : ∃ x y rest, cmds = x :: y :: rest := by
    rcases cmds with _ | ⟨x, _ | ⟨y, rest⟩⟩
    · simp at hn
    · simp at hn
    · exact ⟨x, y, rest, rfl⟩
  subst hxy
  have hloop := pipedSpawnLoop_ext env (x :: y :: rest).length (x :: y :: rest) 0 [] s
    (by simp) (by simp) hp hb hs
  rw [show execute_piped_commands env (x :: y :: rest) s
        = (match pipedSpawnLoop env (x :: y :: rest).length (x :: y :: rest) 0 [] s with
           | (s1, .error e) => (s1, .error e)
           | (s1, .ok procs) => waitIntermediates env procs s1) from rfl, hloop]
  constructor
  · intro hw
    rw [if_neg (by rw [hw]; simp)]
  · intro hw
    rw [if_pos hw]
    dsimp only
    rw [waitIntermediates_spec env]
    rw [show ((x :: y :: rest).length - 1) = (y :: rest).length from rfl, rangeFrom_zero]
    simp [List.append_assoc]

theorem c7_pipeline_order_witness :
    (2 ≤ ([Command.mk "a" [], Command.mk "b" [], Command.mk "c" []] : List Command).length ∧
        (∀ c ∈ ([Command.mk "a" [], Command.mk "b" [], Command.mk "c" []] : List Command),
          builtinResult env0 c = .ok false) ∧
        (∀ c ∈ ([Command.mk "a" [], Command.mk "b" [], Command.mk "c" []] : List Command),
          env0.spawnOk c.program c.args = true) ∧
        s0.nextPid = 0) ∧
      ((env0.waitSuccess 2 = false →
          execute_piped_commands env0 [Command.mk "a" [], Command.mk "b" [], Command.mk "c" []] s0
            = ({ s0 with
                  events := s0.events
                    ++ spawnEvents 0 [Command.mk "a" [], Command.mk "b" [], Command.mk "c" []]
                    ++ [Event.wait 2],
                  nextPid := 3 },
               .error (.CommandError ("命令 " ++ squoteStr ++ "c" ++ squoteStr
                   ++ " 退出，状态码: " ++ toString ((env0.waitCode 2).getD (-1)))))) ∧
        (env0.waitSuccess 2 = true →
          execute_piped_commands env0 [Command.mk "a" [], Command.mk "b" [], Command.mk "c" []] s0
            = ({ s0 with
                  events := s0.events
                    ++ spawnEvents 0 [Command.mk "a" [], Command.mk "b" [], Command.mk "c" []]
                    ++ [Event.wait 2] ++ (specWaitTrace env0 (List.range 2)).1,
                  nextPid := 3 },
               (specWaitTrace env0 (List.range 2)).2))) :=
  ⟨⟨by decide, by decide, by decide, rfl⟩,
    c7_pipeline_order env0 [Command.mk "a" [], Command.mk "b" [], Command.mk "c" []] s0
      (by decide) (by decide) (by decide) rfl⟩

end Shell
